import Mathlib

/-!
Shallow embedding of the glass-alert-app core (src/lib/db.ts,
src/unnamed/part_001: sync merge and proximity hook) and proofs of the
spec claims about it.

Conventions:
* Timestamps are milliseconds since the epoch, modelled as `Nat`
  (JavaScript `Date.now()`; ISO-string timestamps stored in ledgers are
  identified with the millisecond value `new Date(s).getTime()` they
  round-trip to).
* Subtractions that can go negative in JavaScript are done in `Int`.
* TypeScript optional booleans (`archived?`, `flagged?`, `noGlassFound?`)
  are modelled as `Bool` with `false` for `undefined`: every use in the
  embedded code is a truthiness test, for which the two coincide.
* The Dexie table is modelled as a `List Report`; `db.reports.update id c`
  on a fetched report becomes a pure record update on that report.
  The not-found branch of the vote operations (report absent, returning
  `{success := false, alreadyConfirmed := false}` with no state change)
  is outside the per-report transition functions, which take the fetched
  report as an argument.
-/

namespace GlassAlert

/-- `syncStatus` values from src/lib/db.ts (`'synced' | 'pending' | 'conflict'`). -/
inductive SyncStatus where
  | synced
  | pending
  | conflict
deriving Repr, DecidableEq

/-- A ledger entry (src/lib/db.ts `Confirmation`): device id plus timestamp. -/
structure Confirmation where
  deviceId : String
  timestamp : Nat
deriving Repr, DecidableEq

/-- The `Report` entity of src/lib/db.ts. -/
structure Report where
  id : String
  lat : ℚ
  lng : ℚ
  desc : String
  photoBase64 : Option String
  photoUrl : Option String
  date : String
  clearedCount : Nat
  resolved : Bool
  stillThereCount : Nat
  stillThereConfirmations : List Confirmation
  clearedConfirmations : List Confirmation
  syncStatus : SyncStatus
  lastModified : Nat
  firebaseId : Option String
  archived : Bool
  archivedAt : Option Nat
  flagged : Bool
  noGlassFound : Bool
deriving Repr, DecidableEq

/-- Result record of the two vote operations (`{ success, alreadyConfirmed }`). -/
structure VoteResult where
  success : Bool
  alreadyConfirmed : Bool
deriving Repr, DecidableEq

/-- Milliseconds in 24 hours. -/
def DAY_MS : Nat := 24 * 60 * 60 * 1000

/-- Milliseconds in 7 days. -/
def SEVEN_DAYS_MS : Nat := 7 * 24 * 60 * 60 * 1000

/-- src/lib/db.ts `hasDeviceConfirmedCleared`. -/
def hasDeviceConfirmedCleared (report : Report) (deviceId : String) : Bool :=
  report.clearedConfirmations.any (fun c => c.deviceId == deviceId)

/-- src/lib/db.ts `hasDeviceConfirmedStillThereRecently`: some ledger entry by
this device is strictly newer than `now - 24h` (the cutoff is computed in `Int`
because it is negative in JavaScript when `now < 24h`). -/
def hasDeviceConfirmedStillThereRecently (report : Report) (deviceId : String)
    (now : Nat) : Bool :=
  let oneDayAgo : Int := (now : Int) - (DAY_MS : Int)
  report.stillThereConfirmations.any
    (fun c => c.deviceId == deviceId && oneDayAgo < (c.timestamp : Int))

/-- src/lib/db.ts `incrementClearedCount`, as a pure transition on the fetched
report; `now` stands for both `new Date().toISOString()` and `Date.now()`. -/
def incrementClearedCount (report : Report) (deviceId : String) (now : Nat) :
    Report × VoteResult :=
  if hasDeviceConfirmedCleared report deviceId then
    (report, { success := false, alreadyConfirmed := true })
  else
    let newConfirmations :=
      report.clearedConfirmations ++ [{ deviceId := deviceId, timestamp := now }]
    let newCount := newConfirmations.length
    ({ report with
        clearedCount := newCount,
        clearedConfirmations := newConfirmations,
        resolved := decide (3 ≤ newCount),
        lastModified := now,
        syncStatus := .pending },
     { success := true, alreadyConfirmed := false })

/-- src/lib/db.ts `incrementStillThereCount`, as a pure transition on the
fetched report. -/
def incrementStillThereCount (report : Report) (deviceId : String) (now : Nat) :
    Report × VoteResult :=
  if hasDeviceConfirmedStillThereRecently report deviceId now then
    (report, { success := false, alreadyConfirmed := true })
  else
    let newConfirmations :=
      report.stillThereConfirmations ++ [{ deviceId := deviceId, timestamp := now }]
    let newStillThereCount := newConfirmations.length
    let shouldResetCleared := decide (2 ≤ newStillThereCount)
    ({ report with
        stillThereCount := newStillThereCount,
        stillThereConfirmations := newConfirmations,
        clearedCount := if shouldResetCleared then 0 else report.clearedCount,
        clearedConfirmations :=
          if shouldResetCleared then [] else report.clearedConfirmations,
        resolved := false,
        lastModified := now,
        syncStatus := .pending },
     { success := true, alreadyConfirmed := false })

/-- src/lib/db.ts `updateReport`: spread the caller's partial changes
(modelled as an arbitrary record transformer, since a `Partial<Report>` can
touch any field), then stamp `lastModified` and `syncStatus`, which always win
because they come last in the object literal. -/
def updateReport (changes : Report → Report) (now : Nat) (r : Report) : Report :=
  { changes r with lastModified := now, syncStatus := .pending }

/-- src/lib/db.ts `markAsResolved`. -/
def markAsResolved (now : Nat) (r : Report) : Report :=
  { r with resolved := true, lastModified := now, syncStatus := .pending }

/-- The per-record change applied by src/lib/db.ts `bulkMarkResolved` to each
report whose id is in the key list. -/
def bulkMarkResolvedStep (now : Nat) (r : Report) : Report :=
  { r with resolved := true, lastModified := now, syncStatus := .pending }

/-- src/lib/db.ts `bulkMarkResolved`: one `bulkUpdate` applying the same
changes (with a single `Date.now()`) to every report whose id is listed. -/
def bulkMarkResolved (ids : List String) (now : Nat) (reports : List Report) :
    List Report :=
  reports.map (fun r => if ids.contains r.id then bulkMarkResolvedStep now r else r)

/-- The per-record change of src/lib/db.ts `markAsSynced`: status `synced`,
`firebaseId` from the optional map, `lastModified` untouched. -/
def markAsSyncedStep (firebaseId : Option String) (r : Report) : Report :=
  { r with syncStatus := .synced, firebaseId := firebaseId }

/-- src/lib/db.ts `markAsSynced` over the table. -/
def markAsSynced (ids : List String) (firebaseIds : String → Option String)
    (reports : List Report) : List Report :=
  reports.map (fun r =>
    if ids.contains r.id then markAsSyncedStep (firebaseIds r.id) r else r)

/-- src/lib/db.ts `archiveReport`. -/
def archiveReport (now : Nat) (r : Report) : Report :=
  { r with
      archived := true,
      archivedAt := some now,
      lastModified := now,
      syncStatus := .pending }

/-- src/lib/db.ts `unarchiveReport` (`archivedAt: undefined`). -/
def unarchiveReport (now : Nat) (r : Report) : Report :=
  { r with
      archived := false,
      archivedAt := none,
      lastModified := now,
      syncStatus := .pending }

/-- src/lib/db.ts `toggleFlagged` on the fetched report; also returns the new
flag value as the function does. -/
def toggleFlagged (now : Nat) (r : Report) : Report × Bool :=
  let newFlagged := !r.flagged
  ({ r with flagged := newFlagged, lastModified := now, syncStatus := .pending },
   newFlagged)

/-- src/lib/db.ts `toggleNoGlassFound` on the fetched report. -/
def toggleNoGlassFound (now : Nat) (r : Report) : Report × Bool :=
  let newNoGlassFound := !r.noGlassFound
  ({ r with
      noGlassFound := newNoGlassFound,
      lastModified := now,
      syncStatus := .pending },
   newNoGlassFound)

/-- The filter predicate of src/lib/db.ts `autoArchiveOldResolvedReports`:
`resolved && !archived && lastModified < now - 7 days` (cutoff in `Int`). -/
def shouldAutoArchive (now : Nat) (r : Report) : Bool :=
  r.resolved && !r.archived &&
    decide ((r.lastModified : Int) < (now : Int) - (SEVEN_DAYS_MS : Int))

/-- src/lib/db.ts `autoArchiveOldResolvedReports`: archives every report
passing the filter (each via `archiveReport`) and returns the new table and
the number archived. -/
def autoArchiveOldResolvedReports (now : Nat) (reports : List Report) :
    List Report × Nat :=
  (reports.map (fun r => if shouldAutoArchive now r then archiveReport now r else r),
   (reports.filter (shouldAutoArchive now)).length)

/-- A sequence of `castCleared` calls, each `(deviceId, now)`, applied in
order to one report. -/
def castClearedSeq (r : Report) : List (String × Nat) → Report
  | [] => r
  | (d, t) :: vs => castClearedSeq (incrementClearedCount r d t).1 vs

/-- A concrete report with default field values, for instantiating the
theorems below at specific inputs. -/
def sampleReport (id : String) : Report :=
  { id := id, lat := 0, lng := 0, desc := "", photoBase64 := none,
    photoUrl := none, date := "", clearedCount := 0, resolved := false,
    stillThereCount := 0, stillThereConfirmations := [],
    clearedConfirmations := [], syncStatus := .pending, lastModified := 0,
    firebaseId := none, archived := false, archivedAt := none,
    flagged := false, noGlassFound := false }

/-! ### Sync merge (src/unnamed/part_001, `mergeReports`)

The JavaScript `Map<string, Report>` is embedded as an association list in
insertion order: `Map.set` replaces the binding in place when the key is
present and appends otherwise; `Map.get` returns the bound value;
`Array.from(m.values())` is `map Prod.snd`. -/

/-- `Map.get`. -/
def mapGet (m : List (String × Report)) (k : String) : Option Report :=
  match m with
  | [] => none
  | p :: ps => if p.1 = k then some p.2 else mapGet ps k

/-- `Map.set`: replace in place if the key is bound, else append. -/
def mapSet (m : List (String × Report)) (k : String) (v : Report) :
    List (String × Report) :=
  match m with
  | [] => [(k, v)]
  | p :: ps => if p.1 = k then (k, v) :: ps else p :: mapSet ps k v

/-- First loop of `mergeReports`: `for (const report of localReports)
merged.set(report.id, report)`. -/
def insertLocals (locals : List Report) (m : List (String × Report)) :
    List (String × Report) :=
  match locals with
  | [] => m
  | r :: rs => insertLocals rs (mapSet m r.id r)

/-- Body of the second loop of `mergeReports` for one remote report. -/
def mergeRemote (m : List (String × Report)) (remote : Report) :
    List (String × Report) :=
  match mapGet m remote.id with
  | none => mapSet m remote.id remote
  | some localReport =>
    if localReport.lastModified < remote.lastModified then
      mapSet m remote.id { remote with syncStatus := .synced }
    else if remote.lastModified < localReport.lastModified
        && localReport.syncStatus == .pending then
      mapSet m remote.id localReport
    else m

/-- Second loop of `mergeReports` over all remote reports. -/
def insertRemotes (remotes : List Report) (m : List (String × Report)) :
    List (String × Report) :=
  match remotes with
  | [] => m
  | r :: rs => insertRemotes rs (mergeRemote m r)

/-- src/unnamed/part_001 `mergeReports`. -/
def mergeReports (localReports remoteReports : List Report) : List Report :=
  (insertRemotes remoteReports (insertLocals localReports [])).map Prod.snd

/-- Look a report up by id in a plain list (first match). -/
def findById (reports : List Report) (k : String) : Option Report :=
  reports.find? (fun r => r.id == k)

/-! ### Proximity detector (src/unnamed/part_001, `useProximityAlerts`)

The hook state is the triple of refs `lastCheckRef`,
`previouslyInProximityRef` (a `Set<string>`, embedded as a list of ids) and
`hasTriggeredAlertRef`; a location fix is abstracted by the timestamp
`Date.now()` at which it is handled together with a distance oracle
`dist : String → ℚ` giving, per report id, the value `calculateDistance`
computes from the fix to that report (`calculateDistance` lives in
src/lib/utils.ts, which is not part of the snapshot; the claims speak of
fixes directly by their distance in metres). -/

/-- Entry radius in metres. -/
def ENTRY_RADIUS_METERS : ℚ := 3

/-- Exit radius in metres. -/
def EXIT_RADIUS_METERS : ℚ := 6

/-- Debounce interval in milliseconds. -/
def DEBOUNCE_MS : Nat := 1000

/-- The refs of `useProximityAlerts` that `checkProximity` reads and writes. -/
structure ProxState where
  lastCheck : Nat
  previouslyInProximity : List String
  hasTriggeredAlert : Bool
deriving Repr, DecidableEq

/-- Observable effects of one `checkProximity` call: whether
`onAlertTriggered` fired and whether `onAlertCleared` fired. -/
structure ProxOutput where
  alertTriggered : Bool
  alertCleared : Bool
deriving Repr, DecidableEq

/-- Initial ref values of the hook. -/
def initProxState : ProxState :=
  { lastCheck := 0, previouslyInProximity := [], hasTriggeredAlert := false }

/-- One `checkProximity` call (src/unnamed/part_001 lines 442-504).
`now - st.lastCheck` is `Nat` subtraction, which agrees with the JavaScript
comparison `now - lastCheck < DEBOUNCE_MS` (a negative difference and a
clamped 0 both pass the guard). The in-range set after the call is
`previouslyInProximity` of the returned state. -/
def checkProximity (reports : List Report) (suppressed : List String)
    (dist : String → ℚ) (now : Nat) (st : ProxState) : ProxState × ProxOutput :=
  if now - st.lastCheck < DEBOUNCE_MS then
    (st, { alertTriggered := false, alertCleared := false })
  else
    let activeReports := reports.filter (fun r => !r.resolved && !r.archived)
    let nearbyIds :=
      (activeReports.filter (fun r =>
        if suppressed.contains r.id then false
        else if dist r.id ≤ ENTRY_RADIUS_METERS then true
        else if dist r.id ≤ EXIT_RADIUS_METERS
            && st.previouslyInProximity.contains r.id then true
        else false)).map (fun r => r.id)
    let newlyEntered :=
      nearbyIds.filter (fun rid => !st.previouslyInProximity.contains rid)
    let justExited := nearbyIds.isEmpty && !st.previouslyInProximity.isEmpty
    let fired := !newlyEntered.isEmpty && !st.hasTriggeredAlert
    let latch := if fired then true else if justExited then false
                 else st.hasTriggeredAlert
    ({ lastCheck := now, previouslyInProximity := nearbyIds,
       hasTriggeredAlert := latch },
     { alertTriggered := fired, alertCleared := justExited })

/-- Run `checkProximity` over a sequence of fixes, collecting the outputs. -/
def runProximity (reports : List Report) (suppressed : List String) :
    List (Nat × (String → ℚ)) → ProxState → ProxState × List ProxOutput
  | [], st => (st, [])
  | (now, dist) :: fixes, st =>
    let step := checkProximity reports suppressed dist now st
    let rest := runProximity reports suppressed fixes step.1
    (rest.1, step.2 :: rest.2)

/-- Devices of a cleared ledger, in order. -/
def clearedDevices (r : Report) : List String :=
  r.clearedConfirmations.map Confirmation.deviceId

/-- Every binding of the association list maps an id to a report carrying
that id; holds for all maps `mergeReports` builds. -/
def WellKeyed (m : List (String × Report)) : Prop :=
  ∀ p ∈ m, (p.2).id = p.1

/-- The per-id value the second merge loop produces, given the map's current
binding for that id and the remote report (mirrors `mergeRemote`). -/
def mergeValue (cur : Option Report) (rem : Report) : Report :=
  match cur with
  | none => rem
  | some l =>
    if l.lastModified < rem.lastModified then { rem with syncStatus := .synced }
    else l

/-! ## Helper lemmas -/

theorem hasDeviceConfirmedCleared_eq_false_iff (r : Report) (d : String) :
    hasDeviceConfirmedCleared r d = false ↔
      ∀ c ∈ r.clearedConfirmations, c.deviceId ≠ d := by
  simp [hasDeviceConfirmedCleared]

theorem hasDeviceConfirmedStillThereRecently_eq_false_iff (r : Report)
    (d : String) (now : Nat) :
    hasDeviceConfirmedStillThereRecently r d now = false ↔
      ∀ c ∈ r.stillThereConfirmations,
        c.deviceId = d → (c.timestamp : Int) ≤ (now : Int) - (DAY_MS : Int) := by
  simp [hasDeviceConfirmedStillThereRecently]

theorem incrementClearedCount_of_new_device (r : Report) (d : String) (now : Nat)
    (h : hasDeviceConfirmedCleared r d = false) :
    incrementClearedCount r d now =
      ({ r with
          clearedCount := r.clearedConfirmations.length + 1,
          clearedConfirmations :=
            r.clearedConfirmations ++ [{ deviceId := d, timestamp := now }],
          resolved := decide (3 ≤ r.clearedConfirmations.length + 1),
          lastModified := now,
          syncStatus := .pending },
       { success := true, alreadyConfirmed := false }) := by
  simp [incrementClearedCount, h]

theorem incrementStillThereCount_of_no_recent (r : Report) (d : String) (now : Nat)
    (h : hasDeviceConfirmedStillThereRecently r d now = false) :
    incrementStillThereCount r d now =
      ({ r with
          stillThereCount := r.stillThereConfirmations.length + 1,
          stillThereConfirmations :=
            r.stillThereConfirmations ++ [{ deviceId := d, timestamp := now }],
          clearedCount :=
            if 2 ≤ r.stillThereConfirmations.length + 1 then 0 else r.clearedCount,
          clearedConfirmations :=
            if 2 ≤ r.stillThereConfirmations.length + 1 then []
            else r.clearedConfirmations,
          resolved := false,
          lastModified := now,
          syncStatus := .pending },
       { success := true, alreadyConfirmed := false }) := by
  simp [incrementStillThereCount, h]

theorem incrementStillThereCount_success_iff (r : Report) (d : String) (now : Nat) :
    (incrementStillThereCount r d now).2.success = true ↔
      hasDeviceConfirmedStillThereRecently r d now = false := by
  by_cases h : hasDeviceConfirmedStillThereRecently r d now
  · simp [incrementStillThereCount, h]
  · simp [incrementStillThereCount, h]

/-! ## Claims -/

/-- C5: for every report and device id already present in the report's
cleared ledger, `castCleared` returns `{success := false,
alreadyConfirmed := true}` and leaves the report entirely unchanged, no
matter how many times (and at what times) the call is repeated. -/
theorem castCleared_duplicate_noop (r : Report) (d : String)
    (h : hasDeviceConfirmedCleared r d = true) :
    (∀ now, incrementClearedCount r d now =
      (r, { success := false, alreadyConfirmed := true })) ∧
    (∀ times : List Nat, castClearedSeq r (times.map (fun t => (d, t))) = r) := by
  constructor
  · intro now
    simp [incrementClearedCount, h]
  · intro times
    induction times with
    | nil => rfl
    | cons t ts ih => simp [castClearedSeq, incrementClearedCount, h, ih]

/-- Witness for C5 at a concrete report whose cleared ledger already holds
device `a`: the call is rejected and repeating it twice more changes nothing. -/
theorem castCleared_duplicate_noop_witness :
    (incrementClearedCount
        { sampleReport "r" with
            clearedConfirmations := [{ deviceId := "a", timestamp := 5 }] } "a" 9
      = ({ sampleReport "r" with
            clearedConfirmations := [{ deviceId := "a", timestamp := 5 }] },
         { success := false, alreadyConfirmed := true })) ∧
    (castClearedSeq
        { sampleReport "r" with
            clearedConfirmations := [{ deviceId := "a", timestamp := 5 }] }
        [("a", 9), ("a", 11)]
      = { sampleReport "r" with
            clearedConfirmations := [{ deviceId := "a", timestamp := 5 }] }) := by
  have h := castCleared_duplicate_noop
    { sampleReport "r" with
        clearedConfirmations := [{ deviceId := "a", timestamp := 5 }] }
    "a" (by decide)
  exact ⟨h.1 9, h.2 [9, 11]⟩

/-- C4: a `castStillThere` call while the device has a ledger entry within
the previous 24 hours is rejected with `alreadyConfirmed := true` and
leaves the report unchanged; a call whose every same-device entry is more
than 24 hours old succeeds and appends a new entry. -/
theorem castStillThere_cooldown (r : Report) (d : String) (now : Nat) :
    ((∃ c ∈ r.stillThereConfirmations,
        c.deviceId = d ∧ (now : Int) - (c.timestamp : Int) < (DAY_MS : Int)) →
      incrementStillThereCount r d now =
        (r, { success := false, alreadyConfirmed := true })) ∧
    ((∀ c ∈ r.stillThereConfirmations,
        c.deviceId = d → (DAY_MS : Int) < (now : Int) - (c.timestamp : Int)) →
      (incrementStillThereCount r d now).2 =
        { success := true, alreadyConfirmed := false } ∧
      (incrementStillThereCount r d now).1.stillThereConfirmations =
        r.stillThereConfirmations ++ [{ deviceId := d, timestamp := now }]) := by
  constructor
  · rintro ⟨c, hc, hd, ht⟩
    have hblock : hasDeviceConfirmedStillThereRecently r d now = true := by
      simp [hasDeviceConfirmedStillThereRecently]
      exact ⟨c, hc, by simp [hd], by omega⟩
    simp [incrementStillThereCount, hblock]
  · intro h
    have hfree : hasDeviceConfirmedStillThereRecently r d now = false := by
      rw [hasDeviceConfirmedStillThereRecently_eq_false_iff]
      intro c hc hd
      have := h c hc hd
      omega
    rw [incrementStillThereCount_of_no_recent r d now hfree]
    exact ⟨rfl, rfl⟩

/-- Witness for C4: device `x` voted at time 1000; a second vote within the
day (time 2000) is rejected without change, while a vote a day and a second
after the first succeeds and appends. -/
theorem castStillThere_cooldown_witness :
    (incrementStillThereCount
        { sampleReport "r" with
            stillThereConfirmations := [{ deviceId := "x", timestamp := 1000 }] }
        "x" 2000
      = ({ sampleReport "r" with
            stillThereConfirmations := [{ deviceId := "x", timestamp := 1000 }] },
         { success := false, alreadyConfirmed := true })) ∧
    ((incrementStillThereCount
        { sampleReport "r" with
            stillThereConfirmations := [{ deviceId := "x", timestamp := 1000 }] }
        "x" (2000 + DAY_MS)).1.stillThereConfirmations
      = [{ deviceId := "x", timestamp := 1000 },
         { deviceId := "x", timestamp := 2000 + DAY_MS }]) := by
  refine ⟨?_, ?_⟩
  · exact (castStillThere_cooldown
      { sampleReport "r" with
          stillThereConfirmations := [{ deviceId := "x", timestamp := 1000 }] }
      "x" 2000).1
      ⟨{ deviceId := "x", timestamp := 1000 }, by decide, rfl, by decide⟩
  · have h := (castStillThere_cooldown
      { sampleReport "r" with
          stillThereConfirmations := [{ deviceId := "x", timestamp := 1000 }] }
      "x" (2000 + DAY_MS)).2 (by decide)
    simpa using h.2

/-- C2: from a resolved report with at least 3 cleared votes, two successful
`castStillThere` calls from two distinct devices leave `clearedCount = 0`, an
empty cleared ledger, and `resolved = false`. -/
theorem stillThere_rebuttal_resets (r : Report) (d₁ d₂ : String) (t₁ t₂ : Nat)
    (_hcnt : 3 ≤ r.clearedCount) (_hres : r.resolved = true) (_hdd : d₁ ≠ d₂)
    (h₁ : (incrementStillThereCount r d₁ t₁).2.success = true)
    (h₂ : (incrementStillThereCount
            (incrementStillThereCount r d₁ t₁).1 d₂ t₂).2.success = true) :
    ((incrementStillThereCount
        (incrementStillThereCount r d₁ t₁).1 d₂ t₂).1.clearedCount = 0) ∧
    ((incrementStillThereCount
        (incrementStillThereCount r d₁ t₁).1 d₂ t₂).1.clearedConfirmations = []) ∧
    ((incrementStillThereCount
        (incrementStillThereCount r d₁ t₁).1 d₂ t₂).1.resolved = false) := by
  have g₁ : hasDeviceConfirmedStillThereRecently r d₁ t₁ = false :=
    (incrementStillThereCount_success_iff r d₁ t₁).mp h₁
  set r₁ := (incrementStillThereCount r d₁ t₁).1 with hr₁
  have g₂ : hasDeviceConfirmedStillThereRecently r₁ d₂ t₂ = false :=
    (incrementStillThereCount_success_iff r₁ d₂ t₂).mp h₂
  have hlen : r₁.stillThereConfirmations =
      r.stillThereConfirmations ++ [{ deviceId := d₁, timestamp := t₁ }] := by
    rw [hr₁, incrementStillThereCount_of_no_recent r d₁ t₁ g₁]
  rw [incrementStillThereCount_of_no_recent r₁ d₂ t₂ g₂]
  have : 2 ≤ r₁.stillThereConfirmations.length + 1 := by
    rw [hlen]; simp
  simp [this]

/-- Witness for C2: a report resolved by three cleared votes, rebutted by
devices `x` (day 1) and `y` (day 2). -/
theorem stillThere_rebuttal_resets_witness :
    ((incrementStillThereCount
        (incrementStillThereCount
          { sampleReport "r" with
              resolved := true, clearedCount := 3,
              clearedConfirmations :=
                [{ deviceId := "a", timestamp := 1 },
                 { deviceId := "b", timestamp := 2 },
                 { deviceId := "c", timestamp := 3 }] }
          "x" 10).1 "y" 20).1.clearedCount = 0) ∧
    ((incrementStillThereCount
        (incrementStillThereCount
          { sampleReport "r" with
              resolved := true, clearedCount := 3,
              clearedConfirmations :=
                [{ deviceId := "a", timestamp := 1 },
                 { deviceId := "b", timestamp := 2 },
                 { deviceId := "c", timestamp := 3 }] }
          "x" 10).1 "y" 20).1.resolved = false) := by
  have h := stillThere_rebuttal_resets
    { sampleReport "r" with
        resolved := true, clearedCount := 3,
        clearedConfirmations :=
          [{ deviceId := "a", timestamp := 1 },
           { deviceId := "b", timestamp := 2 },
           { deviceId := "c", timestamp := 3 }] }
    "x" "y" 10 20 (by decide) (by decide) (by decide) (by decide) (by decide)
  exact ⟨h.1, h.2.2⟩

/-- C9: every accepted `castCleared` sets `resolved` to the truth value of
`3 ≤ resulting clearedCount`; hence a report made resolved by the
`bulkMarkResolved` override while holding fewer than 2 cleared votes is
un-resolved again by a single accepted `castCleared` from a new device. -/
theorem castCleared_recomputes_resolved :
    (∀ (r : Report) (d : String) (now : Nat),
      hasDeviceConfirmedCleared r d = false →
      (incrementClearedCount r d now).2 =
        { success := true, alreadyConfirmed := false } ∧
      (incrementClearedCount r d now).1.resolved =
        decide (3 ≤ (incrementClearedCount r d now).1.clearedCount)) ∧
    (∀ (reports : List Report) (ids : List String) (now₀ : Nat) (r : Report),
      r ∈ reports → ids.contains r.id = true →
      r.clearedConfirmations.length < 2 →
      ∀ (d : String) (now : Nat), hasDeviceConfirmedCleared r d = false →
      ∃ r₁ ∈ bulkMarkResolved ids now₀ reports,
        r₁.resolved = true ∧
        (incrementClearedCount r₁ d now).2 =
          { success := true, alreadyConfirmed := false } ∧
        (incrementClearedCount r₁ d now).1.resolved = false) := by
  constructor
  · intro r d now h
    rw [incrementClearedCount_of_new_device r d now h]
    exact ⟨rfl, rfl⟩
  · intro reports ids now₀ r hmem hid hlen d now hfresh
    refine ⟨bulkMarkResolvedStep now₀ r, ?_, rfl, ?_, ?_⟩
    · unfold bulkMarkResolved
      exact List.mem_map.mpr ⟨r, hmem, if_pos hid⟩
    · rw [incrementClearedCount_of_new_device _ d now
        (by simpa [hasDeviceConfirmedCleared, bulkMarkResolvedStep] using hfresh)]
    · rw [incrementClearedCount_of_new_device _ d now
        (by simpa [hasDeviceConfirmedCleared, bulkMarkResolvedStep] using hfresh)]
      simp [bulkMarkResolvedStep]
      omega

/-- Witness for C9: a report with one cleared vote is force-resolved by
`bulkMarkResolved`, then a single new-device `castCleared` flips it back to
unresolved. -/
theorem castCleared_recomputes_resolved_witness :
    ∃ r₁ ∈ bulkMarkResolved ["r"] 50
        [{ sampleReport "r" with
            clearedConfirmations := [{ deviceId := "a", timestamp := 1 }],
            clearedCount := 1 }],
      r₁.resolved = true ∧
      (incrementClearedCount r₁ "b" 60).2 =
        { success := true, alreadyConfirmed := false } ∧
      (incrementClearedCount r₁ "b" 60).1.resolved = false := by
  exact castCleared_recomputes_resolved.2
    [{ sampleReport "r" with
        clearedConfirmations := [{ deviceId := "a", timestamp := 1 }],
        clearedCount := 1 }]
    ["r"] 50
    { sampleReport "r" with
        clearedConfirmations := [{ deviceId := "a", timestamp := 1 }],
        clearedCount := 1 }
    (by simp) (by decide) (by decide) "b" 60 (by decide)

/-- C10: every accepted `castStillThere` forces `resolved := false`, even
when the resulting `stillThereCount` is 1 (below the rebuttal threshold);
the cleared ledger is erased exactly when the resulting count reaches 2. -/
theorem castStillThere_always_unresolves (r : Report) (d : String) (now : Nat)
    (h : hasDeviceConfirmedStillThereRecently r d now = false) :
    (incrementStillThereCount r d now).2 =
      { success := true, alreadyConfirmed := false } ∧
    (incrementStillThereCount r d now).1.resolved = false ∧
    (incrementStillThereCount r d now).1.stillThereCount =
      r.stillThereConfirmations.length + 1 ∧
    (incrementStillThereCount r d now).1.clearedConfirmations =
      (if 2 ≤ r.stillThereConfirmations.length + 1 then []
       else r.clearedConfirmations) ∧
    (r.stillThereConfirmations = [] →
      (incrementStillThereCount r d now).1.stillThereCount = 1 ∧
      (incrementStillThereCount r d now).1.clearedConfirmations =
        r.clearedConfirmations) := by
  rw [incrementStillThereCount_of_no_recent r d now h]
  refine ⟨rfl, rfl, rfl, rfl, ?_⟩
  intro h0
  simp [h0]

theorem hasDeviceConfirmedCleared_eq_false_of_notMem (r : Report) (d : String)
    (h : d ∉ clearedDevices r) : hasDeviceConfirmedCleared r d = false := by
  rw [hasDeviceConfirmedCleared_eq_false_iff]
  intro c hc hcd
  exact h (by simpa [clearedDevices, hcd] using List.mem_map_of_mem Confirmation.deviceId hc)

/-- Running a vote sequence whose devices, together with the devices already
on the ledger, are pairwise distinct: every call is accepted, the ledger
devices extend by the cast devices in order, and (after at least one call)
`resolved` equals `3 ≤ final ledger size`. -/
theorem castClearedSeq_characterization (votes : List (String × Nat)) :
    ∀ r : Report,
      (clearedDevices r ++ votes.map Prod.fst).Nodup →
      clearedDevices (castClearedSeq r votes) =
        clearedDevices r ++ votes.map Prod.fst ∧
      (votes ≠ [] →
        (castClearedSeq r votes).resolved =
          decide (3 ≤ r.clearedConfirmations.length + votes.length)) := by
  induction votes with
  | nil =>
    intro r _
    exact ⟨by simp [castClearedSeq], by simp⟩
  | cons v vs ih =>
    intro r hnd
    obtain ⟨d, t⟩ := v
    have hd_notMem : d ∉ clearedDevices r := by
      have hdisj := (List.nodup_append.mp hnd).2.2
      intro hmem
      exact hdisj hmem (by simp)
    have hfresh : hasDeviceConfirmedCleared r d = false :=
      hasDeviceConfirmedCleared_eq_false_of_notMem r d hd_notMem
    have hstep := incrementClearedCount_of_new_device r d t hfresh
    set r' := (incrementClearedCount r d t).1 with hr'
    have hdev' : clearedDevices r' = clearedDevices r ++ [d] := by
      rw [hr', hstep]
      simp [clearedDevices]
    have hlen' : r'.clearedConfirmations.length =
        r.clearedConfirmations.length + 1 := by
      rw [hr', hstep]
      simp
    have hnd' : (clearedDevices r' ++ vs.map Prod.fst).Nodup := by
      rw [hdev', List.append_assoc]
      simpa using hnd
    have hseq : castClearedSeq r ((d, t) :: vs) = castClearedSeq r' vs := by
      simp [castClearedSeq, hr']
    obtain ⟨ihdev, ihres⟩ := ih r' hnd'
    constructor
    · rw [hseq, ihdev, hdev', List.append_assoc]
      simp
    · intro _
      rcases List.eq_nil_or_concat vs with hvs | _
      · subst hvs
        rw [hseq]
        simp only [castClearedSeq]
        rw [hr', hstep]
        simp
      · have hvs_ne : vs ≠ [] := by
          rintro rfl
          simp_all
        rw [hseq, ihres hvs_ne, hlen']
        have harith : r.clearedConfirmations.length + 1 + vs.length =
            r.clearedConfirmations.length + (vs.length + 1) := by omega
        rw [harith]
        simp

/-- C1: starting from an empty cleared ledger and an unresolved report,
for every vote sequence from pairwise-distinct devices and every prefix
length `k` of it, after the first `k` calls `resolved` holds exactly when
`3 ≤ k`; in particular it is false after two calls and true after the
third; moreover each call in the sequence is accepted. -/
theorem castCleared_quorum (r : Report) (votes : List (String × Nat)) (k : Nat)
    (h0 : r.clearedConfirmations = []) (hres : r.resolved = false)
    (hnd : (votes.map Prod.fst).Nodup) (hk : k ≤ votes.length) :
    ((castClearedSeq r (votes.take k)).resolved = decide (3 ≤ k)) ∧
    (2 ≤ votes.length → (castClearedSeq r (votes.take 2)).resolved = false) ∧
    (3 ≤ votes.length → (castClearedSeq r (votes.take 3)).resolved = true) ∧
    (∀ (d : String) (t : Nat), (d, t) ∈ votes.drop k →
      (incrementClearedCount (castClearedSeq r (votes.take k)) d t).2 =
        { success := true, alreadyConfirmed := false }) := by
  have hdev0 : clearedDevices r = [] := by simp [clearedDevices, h0]
  have main : ∀ j, j ≤ votes.length →
      (castClearedSeq r (votes.take j)).resolved = decide (3 ≤ j) := by
    intro j hj
    have hndj : (clearedDevices r ++ (votes.take j).map Prod.fst).Nodup := by
      rw [hdev0, List.nil_append]
      exact ((List.take_sublist j votes).map Prod.fst).nodup hnd
    rcases Nat.eq_zero_or_pos j with hj0 | hjpos
    · subst hj0
      simp [castClearedSeq, hres]
    · have hne : votes.take j ≠ [] := by
        intro hnil
        have hlen := congrArg List.length hnil
        rw [List.length_take] at hlen
        simp only [List.length_nil] at hlen
        omega
      have hchar := (castClearedSeq_characterization (votes.take j) r hndj).2 hne
      have hlen : (votes.take j).length = j := by
        rw [List.length_take]
        omega
      rw [hchar, h0, hlen]
      simp
  refine ⟨main k hk, ?_, ?_, ?_⟩
  · intro h2
    rw [main 2 h2]
    decide
  · intro h3
    rw [main 3 h3]
    decide
  · intro d t hmem
    have hndk : (clearedDevices r ++ (votes.take k).map Prod.fst).Nodup := by
      rw [hdev0, List.nil_append]
      exact ((List.take_sublist k votes).map Prod.fst).nodup hnd
    have hdevk := (castClearedSeq_characterization (votes.take k) r hndk).1
    have hfresh : hasDeviceConfirmedCleared (castClearedSeq r (votes.take k)) d
        = false := by
      apply hasDeviceConfirmedCleared_eq_false_of_notMem
      rw [hdevk, hdev0, List.nil_append]
      intro hdmem
      -- d occurs among the first k devices and also in the dropped suffix,
      -- contradicting Nodup of the whole device list
      have hmemdrop : d ∈ (votes.drop k).map Prod.fst :=
        List.mem_map.mpr ⟨(d, t), hmem, rfl⟩
      have : ¬ (votes.map Prod.fst).Nodup := by
        rw [← List.take_append_drop k votes, List.map_append, List.nodup_append]
        intro hcontra
        exact hcontra.2.2 hdmem hmemdrop
      exact this hnd
    rw [incrementClearedCount_of_new_device _ d t hfresh]

/-- Witness for C1: three distinct devices vote; after two votes the report
is unresolved, after the third it is resolved. -/
theorem castCleared_quorum_witness :
    ((castClearedSeq (sampleReport "r")
        ([("a", 1), ("b", 2), ("c", 3)].take 2)).resolved = false) ∧
    ((castClearedSeq (sampleReport "r")
        ([("a", 1), ("b", 2), ("c", 3)].take 3)).resolved = true) := by
  have h := castCleared_quorum (sampleReport "r") [("a", 1), ("b", 2), ("c", 3)]
    3 (by decide) (by decide) (by decide) (by decide)
  exact ⟨h.2.1 (by decide), h.2.2.1 (by decide)⟩

/-- Witness for C10: one still-there vote on a resolved report with three
cleared votes un-resolves it while keeping the cleared ledger. -/
theorem castStillThere_always_unresolves_witness :
    ((incrementStillThereCount
        { sampleReport "r" with
            resolved := true, clearedCount := 3,
            clearedConfirmations :=
              [{ deviceId := "a", timestamp := 1 },
               { deviceId := "b", timestamp := 2 },
               { deviceId := "c", timestamp := 3 }] }
        "x" 10).1.resolved = false) ∧
    ((incrementStillThereCount
        { sampleReport "r" with
            resolved := true, clearedCount := 3,
            clearedConfirmations :=
              [{ deviceId := "a", timestamp := 1 },
               { deviceId := "b", timestamp := 2 },
               { deviceId := "c", timestamp := 3 }] }
        "x" 10).1.clearedConfirmations =
      [{ deviceId := "a", timestamp := 1 },
       { deviceId := "b", timestamp := 2 },
       { deviceId := "c", timestamp := 3 }]) := by
  have h := castStillThere_always_unresolves
    { sampleReport "r" with
        resolved := true, clearedCount := 3,
        clearedConfirmations :=
          [{ deviceId := "a", timestamp := 1 },
           { deviceId := "b", timestamp := 2 },
           { deviceId := "c", timestamp := 3 }] }
    "x" 10 (by decide)
  exact ⟨h.2.1, (h.2.2.2.2 rfl).2⟩

theorem shouldAutoArchive_archiveReport (now t : Nat) (r : Report) :
    shouldAutoArchive now (archiveReport t r) = false := by
  simp [shouldAutoArchive, archiveReport]

/-- C6: the auto-archive sweep turns exactly the reports with `resolved`,
not `archived`, and `lastModified` strictly older than 7 days into their
archived form (`archived := true`, `archivedAt := now`), reports their
number, and is idempotent: an immediate second run changes nothing and
counts zero; a resolved report 8 days old is archived while one 6 days old
is not. -/
theorem autoArchive_exact_and_idempotent :
    (∀ (now : Nat) (reports : List Report),
      autoArchiveOldResolvedReports now reports =
        (reports.map (fun r =>
          if r.resolved && !r.archived &&
              decide ((r.lastModified : Int) < (now : Int) - (SEVEN_DAYS_MS : Int))
          then archiveReport now r else r),
         (reports.filter (fun r =>
          r.resolved && !r.archived &&
            decide ((r.lastModified : Int) < (now : Int) - (SEVEN_DAYS_MS : Int)))).length)) ∧
    (∀ (now : Nat) (reports : List Report),
      autoArchiveOldResolvedReports now
          (autoArchiveOldResolvedReports now reports).1 =
        ((autoArchiveOldResolvedReports now reports).1, 0)) ∧
    ((autoArchiveOldResolvedReports (10 * DAY_MS)
        [{ sampleReport "eight" with resolved := true, lastModified := 2 * DAY_MS },
         { sampleReport "six" with resolved := true, lastModified := 4 * DAY_MS }])
      = ([archiveReport (10 * DAY_MS)
            { sampleReport "eight" with resolved := true, lastModified := 2 * DAY_MS },
          { sampleReport "six" with resolved := true, lastModified := 4 * DAY_MS }],
         1)) := by
  refine ⟨fun now reports => rfl, ?_, by decide⟩
  intro now reports
  have hall : ∀ r ∈ (autoArchiveOldResolvedReports now reports).1,
      shouldAutoArchive now r = false := by
    intro r hr
    obtain ⟨r₀, _, heq⟩ := List.mem_map.mp hr
    by_cases h₀ : shouldAutoArchive now r₀ = true
    · rw [← heq, if_pos h₀]
      exact shouldAutoArchive_archiveReport now now r₀
    · rw [← heq, if_neg h₀]
      exact Bool.eq_false_iff.mpr h₀
  have h1 : (autoArchiveOldResolvedReports now
      (autoArchiveOldResolvedReports now reports).1).1 =
      (autoArchiveOldResolvedReports now reports).1 := by
    show ((autoArchiveOldResolvedReports now reports).1).map
        (fun r => if shouldAutoArchive now r then archiveReport now r else r) =
      (autoArchiveOldResolvedReports now reports).1
    rw [List.map_congr_left (fun r hr => if_neg (by rw [hall r hr]; simp))]
    exact List.map_id _
  have h2 : (autoArchiveOldResolvedReports now
      (autoArchiveOldResolvedReports now reports).1).2 = 0 := by
    show (((autoArchiveOldResolvedReports now reports).1).filter
        (shouldAutoArchive now)).length = 0
    rw [List.filter_eq_nil_iff.mpr (fun r hr => by rw [hall r hr]; simp)]
    rfl
  exact Prod.ext h1 h2

/-- C8: every local per-report mutation stamps `lastModified` with the call
time (strictly increasing it under a monotone clock) and sets
`syncStatus := pending`; the remote-origin `markAsSynced` instead sets
`syncStatus := synced` and leaves `lastModified` untouched. -/
theorem localMutations_bump_lastModified (now : Nat) (r : Report)
    (hclock : r.lastModified < now) :
    (∀ changes : Report → Report,
      r.lastModified < (updateReport changes now r).lastModified ∧
      (updateReport changes now r).syncStatus = .pending) ∧
    (r.lastModified < (markAsResolved now r).lastModified ∧
      (markAsResolved now r).syncStatus = .pending) ∧
    (r.lastModified < (bulkMarkResolvedStep now r).lastModified ∧
      (bulkMarkResolvedStep now r).syncStatus = .pending) ∧
    (r.lastModified < (archiveReport now r).lastModified ∧
      (archiveReport now r).syncStatus = .pending) ∧
    (r.lastModified < (unarchiveReport now r).lastModified ∧
      (unarchiveReport now r).syncStatus = .pending) ∧
    (r.lastModified < (toggleFlagged now r).1.lastModified ∧
      (toggleFlagged now r).1.syncStatus = .pending) ∧
    (r.lastModified < (toggleNoGlassFound now r).1.lastModified ∧
      (toggleNoGlassFound now r).1.syncStatus = .pending) ∧
    (∀ d : String, (incrementClearedCount r d now).2.success = true →
      r.lastModified < (incrementClearedCount r d now).1.lastModified ∧
      (incrementClearedCount r d now).1.syncStatus = .pending) ∧
    (∀ d : String, (incrementStillThereCount r d now).2.success = true →
      r.lastModified < (incrementStillThereCount r d now).1.lastModified ∧
      (incrementStillThereCount r d now).1.syncStatus = .pending) ∧
    (∀ firebaseId : Option String,
      (markAsSyncedStep firebaseId r).syncStatus = .synced ∧
      (markAsSyncedStep firebaseId r).lastModified = r.lastModified) := by
  refine ⟨fun changes => ⟨hclock, rfl⟩, ⟨hclock, rfl⟩, ⟨hclock, rfl⟩,
    ⟨hclock, rfl⟩, ⟨hclock, rfl⟩, ⟨hclock, rfl⟩, ⟨hclock, rfl⟩, ?_, ?_,
    fun firebaseId => ⟨rfl, rfl⟩⟩
  · intro d hs
    by_cases h : hasDeviceConfirmedCleared r d
    · simp [incrementClearedCount, h] at hs
    · rw [incrementClearedCount_of_new_device r d now
        (Bool.eq_false_iff.mpr h)]
      exact ⟨hclock, rfl⟩
  · intro d hs
    have h := (incrementStillThereCount_success_iff r d now).mp hs
    rw [incrementStillThereCount_of_no_recent r d now h]
    exact ⟨hclock, rfl⟩

/-- Witness for C8 at time 10 on the default report (`lastModified = 0`):
`markAsResolved` bumps the timestamp and marks pending, while
`markAsSynced` marks synced without touching the timestamp. -/
theorem localMutations_bump_lastModified_witness :
    ((sampleReport "r").lastModified <
        (markAsResolved 10 (sampleReport "r")).lastModified ∧
      (markAsResolved 10 (sampleReport "r")).syncStatus = SyncStatus.pending) ∧
    ((markAsSyncedStep none (sampleReport "r")).syncStatus = SyncStatus.synced ∧
      (markAsSyncedStep none (sampleReport "r")).lastModified =
        (sampleReport "r").lastModified) := by
  have h := localMutations_bump_lastModified 10 (sampleReport "r") (by decide)
  exact ⟨h.2.1, h.2.2.2.2.2.2.2.2.2 none⟩

/-! ## Merge lemmas (C3) -/

theorem mapGet_mapSet_self (m : List (String × Report)) (k : String) (v : Report) :
    mapGet (mapSet m k v) k = some v := by
  induction m with
  | nil => simp [mapSet, mapGet]
  | cons p ps ih =>
    by_cases h : p.1 = k
    · simp [mapSet, h, mapGet]
    · simp [mapSet, h, mapGet, ih]

theorem mapGet_mapSet_ne (m : List (String × Report)) (k k' : String) (v : Report)
    (h : k' ≠ k) : mapGet (mapSet m k v) k' = mapGet m k' := by
  have hk : ¬ (k = k') := fun he => h he.symm
  induction m with
  | nil => simp [mapSet, mapGet, hk]
  | cons p ps ih =>
    by_cases hp : p.1 = k
    · have hp' : ¬ (p.1 = k') := by rw [hp]; exact hk
      simp [mapSet, hp, mapGet, hk, hp']
    · simp [mapSet, hp, mapGet, ih]

theorem wellKeyed_nil : WellKeyed [] := by
  intro p hp
  cases hp

theorem wellKeyed_mapSet (m : List (String × Report)) (k : String) (v : Report)
    (hm : WellKeyed m) (hv : v.id = k) : WellKeyed (mapSet m k v) := by
  induction m with
  | nil =>
    intro p hp
    simp [mapSet] at hp
    subst hp
    exact hv
  | cons q qs ih =>
    by_cases hq : q.1 = k
    · intro p hp
      simp [mapSet, hq] at hp
      rcases hp with hp | hp
      · subst hp; exact hv
      · exact hm p (by simp [hp])
    · intro p hp
      simp [mapSet, hq] at hp
      rcases hp with hp | hp
      · subst hp; exact hm p (by simp)
      · exact ih (fun q' hq' => hm q' (by simp [hq'])) p hp

theorem mapGet_mem (m : List (String × Report)) (k : String) (r : Report)
    (h : mapGet m k = some r) : (k, r) ∈ m := by
  induction m with
  | nil => simp [mapGet] at h
  | cons p ps ih =>
    by_cases hp : p.1 = k
    · simp [mapGet, hp] at h
      have hpk : p = (k, r) := Prod.ext hp h
      rw [← hpk]
      exact List.mem_cons_self p ps
    · simp [mapGet, hp] at h
      exact List.mem_cons_of_mem p (ih h)

theorem wellKeyed_mergeRemote (m : List (String × Report)) (rem : Report)
    (hm : WellKeyed m) : WellKeyed (mergeRemote m rem) := by
  cases hget : mapGet m rem.id with
  | none =>
    simp only [mergeRemote, hget]
    exact wellKeyed_mapSet m rem.id rem hm rfl
  | some l =>
    have hl : l.id = rem.id := hm (rem.id, l) (mapGet_mem m rem.id l hget)
    simp only [mergeRemote, hget]
    split_ifs with h1 h2
    · exact wellKeyed_mapSet m rem.id _ hm rfl
    · exact wellKeyed_mapSet m rem.id l hm hl
    · exact hm

theorem wellKeyed_insertLocals (locals : List Report) :
    ∀ m, WellKeyed m → WellKeyed (insertLocals locals m) := by
  induction locals with
  | nil => intro m hm; exact hm
  | cons r rs ih =>
    intro m hm
    exact ih _ (wellKeyed_mapSet m r.id r hm rfl)

theorem wellKeyed_insertRemotes (remotes : List Report) :
    ∀ m, WellKeyed m → WellKeyed (insertRemotes remotes m) := by
  induction remotes with
  | nil => intro m hm; exact hm
  | cons r rs ih =>
    intro m hm
    exact ih _ (wellKeyed_mergeRemote m r hm)

theorem findById_map_snd (m : List (String × Report)) (k : String)
    (hm : WellKeyed m) : findById (m.map Prod.snd) k = mapGet m k := by
  induction m with
  | nil => rfl
  | cons p ps ih =>
    have hp : (p.2).id = p.1 := hm p (by simp)
    by_cases h : p.1 = k
    · simp [findById, List.find?, mapGet, h, hp]
    · have hne : ((p.2).id == k) = false := by
        simp [hp, h]
      simp only [List.map_cons, findById, List.find?, hne, mapGet, h, if_false]
      exact ih (fun q hq => hm q (by simp [hq]))

theorem mapGet_insertLocals_of_notMem (locals : List Report) :
    ∀ m k, (∀ r ∈ locals, r.id ≠ k) →
      mapGet (insertLocals locals m) k = mapGet m k := by
  induction locals with
  | nil => intro m k _; rfl
  | cons r rs ih =>
    intro m k h
    have hr : r.id ≠ k := h r (by simp)
    rw [show insertLocals (r :: rs) m = insertLocals rs (mapSet m r.id r) from rfl,
      ih _ k (fun r' hr' => h r' (by simp [hr'])),
      mapGet_mapSet_ne m r.id k r (fun he => hr he.symm)]

theorem mapGet_insertLocals_of_find (locals : List Report) :
    ∀ m k r, (locals.map Report.id).Nodup →
      locals.find? (fun r' => r'.id == k) = some r →
      mapGet (insertLocals locals m) k = some r := by
  induction locals with
  | nil => intro m k r _ hf; simp at hf
  | cons x xs ih =>
    intro m k r hnd hf
    by_cases hx : x.id = k
    · have hr : r = x := by
        have hbeq : (x.id == k) = true := by simp [hx]
        simp [List.find?, hbeq] at hf
        exact hf.symm
      have hxs : ∀ r' ∈ xs, r'.id ≠ k := by
        intro r' hr' he
        have hmm : x.id ∈ xs.map Report.id := by
          rw [hx, ← he]
          exact List.mem_map_of_mem Report.id hr'
        exact (List.nodup_cons.mp hnd).1 hmm
      rw [hr,
        show insertLocals (x :: xs) m = insertLocals xs (mapSet m x.id x) from rfl,
        mapGet_insertLocals_of_notMem xs _ k hxs, ← hx]
      exact mapGet_mapSet_self m x.id x
    · have hne : (x.id == k) = false := by simp [hx]
      simp only [List.find?, hne] at hf
      rw [show insertLocals (x :: xs) m = insertLocals xs (mapSet m x.id x) from rfl,
        ih _ k r (List.nodup_cons.mp hnd).2 hf]

theorem mapGet_mergeRemote_ne (m : List (String × Report)) (rem : Report)
    (k : String) (h : k ≠ rem.id) :
    mapGet (mergeRemote m rem) k = mapGet m k := by
  cases hget : mapGet m rem.id with
  | none =>
    simp only [mergeRemote, hget]
    exact mapGet_mapSet_ne m rem.id k rem h
  | some l =>
    simp only [mergeRemote, hget]
    split_ifs with h1 h2
    · exact mapGet_mapSet_ne m rem.id k _ h
    · exact mapGet_mapSet_ne m rem.id k l h
    · rfl

theorem mapGet_mergeRemote_self (m : List (String × Report)) (rem : Report) :
    mapGet (mergeRemote m rem) rem.id =
      some (mergeValue (mapGet m rem.id) rem) := by
  cases hget : mapGet m rem.id with
  | none =>
    simp only [mergeRemote, hget, mergeValue]
    exact mapGet_mapSet_self m rem.id rem
  | some l =>
    simp only [mergeRemote, hget, mergeValue]
    split_ifs with h1 h2
    · exact mapGet_mapSet_self m rem.id _
    · rw [mapGet_mapSet_self]
    · exact hget

theorem mapGet_insertRemotes_of_notMem (remotes : List Report) :
    ∀ m k, (∀ r ∈ remotes, r.id ≠ k) →
      mapGet (insertRemotes remotes m) k = mapGet m k := by
  induction remotes with
  | nil => intro m k _; rfl
  | cons r rs ih =>
    intro m k h
    have hr : r.id ≠ k := h r (by simp)
    rw [show insertRemotes (r :: rs) m = insertRemotes rs (mergeRemote m r) from rfl,
      ih _ k (fun r' hr' => h r' (by simp [hr'])),
      mapGet_mergeRemote_ne m r k (fun he => hr he.symm)]

theorem mapGet_insertRemotes_of_find (remotes : List Report) :
    ∀ m k rem, (remotes.map Report.id).Nodup →
      remotes.find? (fun r' => r'.id == k) = some rem →
      mapGet (insertRemotes remotes m) k =
        some (mergeValue (mapGet m k) rem) := by
  induction remotes with
  | nil => intro m k rem _ hf; simp at hf
  | cons x xs ih =>
    intro m k rem hnd hf
    by_cases hx : x.id = k
    · have hr : rem = x := by
        have hbeq : (x.id == k) = true := by simp [hx]
        simp [List.find?, hbeq] at hf
        exact hf.symm
      have hxs : ∀ r' ∈ xs, r'.id ≠ k := by
        intro r' hr' he
        have hmm : x.id ∈ xs.map Report.id := by
          rw [hx, ← he]
          exact List.mem_map_of_mem Report.id hr'
        exact (List.nodup_cons.mp hnd).1 hmm
      rw [hr,
        show insertRemotes (x :: xs) m = insertRemotes xs (mergeRemote m x) from rfl,
        mapGet_insertRemotes_of_notMem xs _ k hxs, ← hx]
      exact mapGet_mergeRemote_self m x
    · have hne : (x.id == k) = false := by simp [hx]
      simp only [List.find?, hne] at hf
      rw [show insertRemotes (x :: xs) m = insertRemotes xs (mergeRemote m x) from rfl,
        ih _ k rem (List.nodup_cons.mp hnd).2 hf,
        mapGet_mergeRemote_ne m x k (fun he => hx he.symm)]

theorem find?_eq_none_of_forall_ne (l : List Report) (k : String)
    (h : ∀ r ∈ l, r.id ≠ k) : l.find? (fun r => r.id == k) = none := by
  rw [List.find?_eq_none]
  intro r hr
  simp [h r hr]

/-- C3: for local and remote lists with unique ids, `mergeReports` is the
union by id: an id on both sides merges to the remote record marked
`synced` exactly when the remote `lastModified` is strictly greater, and to
the untouched local record otherwise (pending stays pending); an id on one
side only keeps that side's record. -/
theorem mergeReports_characterization (localReports remoteReports : List Report)
    (hL : (localReports.map Report.id).Nodup)
    (hR : (remoteReports.map Report.id).Nodup) (k : String) :
    findById (mergeReports localReports remoteReports) k =
      match findById localReports k, findById remoteReports k with
      | some l, some r =>
          some (if l.lastModified < r.lastModified
                then { r with syncStatus := SyncStatus.synced } else l)
      | some l, none => some l
      | none, some r => some r
      | none, none => none := by
  have hwk : WellKeyed (insertRemotes remoteReports (insertLocals localReports [])) :=
    wellKeyed_insertRemotes remoteReports _
      (wellKeyed_insertLocals localReports [] wellKeyed_nil)
  unfold mergeReports
  rw [findById_map_snd _ k hwk]
  cases hRf : findById remoteReports k with
  | none =>
    have hRnone : ∀ r ∈ remoteReports, r.id ≠ k := by
      intro r hr he
      have := List.find?_eq_none.mp hRf r hr
      simp [he] at this
    rw [mapGet_insertRemotes_of_notMem remoteReports _ k hRnone]
    cases hLf : findById localReports k with
    | none =>
      have hLnone : ∀ r ∈ localReports, r.id ≠ k := by
        intro r hr he
        have := List.find?_eq_none.mp hLf r hr
        simp [he] at this
      rw [mapGet_insertLocals_of_notMem localReports _ k hLnone]
      rfl
    | some l =>
      rw [mapGet_insertLocals_of_find localReports _ k l hL hLf]
  | some rem =>
    rw [mapGet_insertRemotes_of_find remoteReports _ k rem hR hRf]
    cases hLf : findById localReports k with
    | none =>
      have hLnone : ∀ r ∈ localReports, r.id ≠ k := by
        intro r hr he
        have := List.find?_eq_none.mp hLf r hr
        simp [he] at this
      rw [mapGet_insertLocals_of_notMem localReports _ k hLnone]
      rfl
    | some l =>
      rw [mapGet_insertLocals_of_find localReports _ k l hL hLf]
      rfl

/-- Witness for C3: a local pending record at `lastModified = 100` merged
against a remote record at `lastModified = 200` yields the remote record
marked `synced`. -/
theorem mergeReports_characterization_witness :
    findById
      (mergeReports
        [{ sampleReport "i" with lastModified := 100, desc := "local" }]
        [{ sampleReport "i" with
            lastModified := 200, desc := "remote", syncStatus := .synced }])
      "i"
    = some { sampleReport "i" with
        lastModified := 200, desc := "remote", syncStatus := .synced } := by
  have h := mergeReports_characterization
    [{ sampleReport "i" with lastModified := 100, desc := "local" }]
    [{ sampleReport "i" with
        lastModified := 200, desc := "remote", syncStatus := .synced }]
    (by decide) (by decide) "i"
  simpa using h

/-! ## Proximity detector (C7) -/

/-- C7: for a processed fix (one that passes the 1000 ms debounce), an
active, non-suppressed report is in the in-range set afterwards exactly when
its distance is within the 3 m entry radius, or it was in-range on the
previous fix and its distance is within the 6 m exit radius. Moreover, on a
single active report: a fix at 2 m fires the alert (entering `Alerting`), a
following fix at 5 m stays in range without firing again, a fix at 7 m
empties the in-range set, clears the latch (back to `Idle`) and fires the
alert-cleared callback; and a fix at 2 m while already `Alerting` fires no
second alert. -/
theorem proximity_hysteresis_alerts :
    (∀ (reports : List Report) (suppressed : List String) (dist : String → ℚ)
        (now : Nat) (st : ProxState) (r : Report),
      (reports.map Report.id).Nodup →
      DEBOUNCE_MS ≤ now - st.lastCheck →
      r ∈ reports → r.resolved = false → r.archived = false →
      suppressed.contains r.id = false →
      (r.id ∈ (checkProximity reports suppressed dist now st).1.previouslyInProximity ↔
        (dist r.id ≤ ENTRY_RADIUS_METERS ∨
          (dist r.id ≤ EXIT_RADIUS_METERS ∧ r.id ∈ st.previouslyInProximity)))) ∧
    (runProximity [sampleReport "g"] []
        [(1000, fun _ => (2 : ℚ)), (2000, fun _ => (5 : ℚ)),
         (3000, fun _ => (7 : ℚ))] initProxState =
      ({ lastCheck := 3000, previouslyInProximity := [],
         hasTriggeredAlert := false },
       [{ alertTriggered := true, alertCleared := false },
        { alertTriggered := false, alertCleared := false },
        { alertTriggered := false, alertCleared := true }])) ∧
    (runProximity [sampleReport "g"] []
        [(1000, fun _ => (2 : ℚ)), (2000, fun _ => (5 : ℚ)),
         (3000, fun _ => (2 : ℚ))] initProxState =
      ({ lastCheck := 3000, previouslyInProximity := ["g"],
         hasTriggeredAlert := true },
       [{ alertTriggered := true, alertCleared := false },
        { alertTriggered := false, alertCleared := false },
        { alertTriggered := false, alertCleared := false }])) := by
  refine ⟨?_, by decide, by decide⟩
  intro reports suppressed dist now st r hnd hdeb hmem hres harch hsup
  have hguard : ¬ (now - st.lastCheck < DEBOUNCE_MS) := by omega
  simp only [checkProximity, if_neg hguard]
  constructor
  · intro h
    obtain ⟨r', hr', hid⟩ := List.mem_map.mp h
    obtain ⟨hr'act, hp⟩ := List.mem_filter.mp hr'
    obtain ⟨hr'rep, _⟩ := List.mem_filter.mp hr'act
    have heq : r' = r := List.inj_on_of_nodup_map hnd hr'rep hmem hid
    rw [heq] at hp
    rw [hsup] at hp
    simp only [Bool.false_eq_true, if_false] at hp
    by_cases h3 : dist r.id ≤ ENTRY_RADIUS_METERS
    · exact Or.inl h3
    · right
      rw [if_neg h3] at hp
      by_cases h6 : (decide (dist r.id ≤ EXIT_RADIUS_METERS) &&
          st.previouslyInProximity.contains r.id) = true
      · have hand := Bool.and_eq_true_iff.mp h6
        refine ⟨by simpa using hand.1, by simpa using hand.2⟩
      · rw [if_neg h6] at hp
        cases hp
  · intro h
    apply List.mem_map.mpr
    refine ⟨r, List.mem_filter.mpr
      ⟨List.mem_filter.mpr ⟨hmem, by simp [hres, harch]⟩, ?_⟩, rfl⟩
    rw [hsup]
    simp only [Bool.false_eq_true, if_false]
    rcases h with h3 | ⟨h6, hprev⟩
    · rw [if_pos h3]
    · by_cases h3 : dist r.id ≤ ENTRY_RADIUS_METERS
      · rw [if_pos h3]
      · rw [if_neg h3, if_pos]
        simp [h6]
        exact hprev

/-- Witness for C7: one active report at 2 m on a first processed fix is in
range afterwards. -/
theorem proximity_hysteresis_alerts_witness :
    "g" ∈ (checkProximity [sampleReport "g"] [] (fun _ => (2 : ℚ)) 1000
      initProxState).1.previouslyInProximity := by
  have h := proximity_hysteresis_alerts.1 [sampleReport "g"] []
    (fun _ => (2 : ℚ)) 1000 initProxState (sampleReport "g")
    (by decide) (by decide) (by simp) rfl rfl rfl
  exact h.mpr (Or.inl (by norm_num [ENTRY_RADIUS_METERS]))

end GlassAlert
